/-
  Verification of the KarmaQuest exercise-analysis backend.

  Shallow embedding of the pose-analysis services:
    - app/services/rep_counter.py      (AngleRepCounter, calculate_angle)
    - app/services/form_analyzer.py    (AngleFormAnalyzer, FORM_RULES)
    - app/services/video_pose_processor.py (compression post-processing)

  Python floats are modelled as rationals (ℚ) except for the transcendental
  angle geometry, which is modelled over the reals (ℝ).  Stateful methods are
  modelled by explicit state passing.
-/
import Mathlib

namespace KarmaQuest

/-! ### Rep counter (rep_counter.py, class AngleRepCounter) -/

/-- The `stage` field of `AngleRepCounter`: "start", "down" or "up". -/
inductive Stage where
  | start : Stage
  | down : Stage
  | up : Stage
deriving DecidableEq, Repr

/-- Constructor arguments of `AngleRepCounter.__init__`. -/
structure RepConfig where
  down_threshold : ℚ
  up_threshold : ℚ
  min_frames_down : ℕ
  min_frames_up : ℕ
deriving DecidableEq, Repr

/-- The mutable fields of `AngleRepCounter`. -/
structure RepState where
  stage : Stage
  rep_count : ℕ
  down_frames : ℕ
  up_frames : ℕ
  angle_history : List ℚ
  rep_timestamps : List ℕ
deriving DecidableEq, Repr

/-- `AngleRepCounter.reset`: the initial state. -/
def RepState.reset : RepState :=
  { stage := .start, rep_count := 0, down_frames := 0, up_frames := 0,
    angle_history := [], rep_timestamps := [] }

/-- `AngleRepCounter.update(angle, frame_idx)`: one step of the counting state
machine.  Returns the new state together with the `rep_completed` flag. -/
def update (cfg : RepConfig) (s : RepState) (angle : ℚ) (frame_idx : ℕ) :
    RepState × Bool :=
  let s1 : RepState :=
    if cfg.down_threshold < angle then
      { s with angle_history := s.angle_history ++ [angle],
               down_frames := s.down_frames + 1, up_frames := 0 }
    else if angle < cfg.up_threshold then
      { s with angle_history := s.angle_history ++ [angle],
               up_frames := s.up_frames + 1, down_frames := 0 }
    else
      { s with angle_history := s.angle_history ++ [angle],
               down_frames := 0, up_frames := 0 }
  match s1.stage with
  | .start | .up =>
      if cfg.min_frames_down ≤ s1.down_frames then
        ({ s1 with stage := .down }, false)
      else (s1, false)
  | .down =>
      if cfg.min_frames_up ≤ s1.up_frames then
        ({ s1 with stage := .up, rep_count := s1.rep_count + 1,
                   rep_timestamps := s1.rep_timestamps ++ [frame_idx] }, true)
      else (s1, false)

/-- Feed a list of angles through `update`, with consecutive frame indices
starting at `i`. -/
def runFrom (cfg : RepConfig) (s : RepState) (i : ℕ) : List ℚ → RepState
  | [] => s
  | a :: rest => runFrom cfg (update cfg s a i).1 (i + 1) rest

/-- Feed a list of angles through a freshly reset counter, frame indices
starting at 0 (as the video loop in video_pose_processor.py does). -/
def run (cfg : RepConfig) (angles : List ℚ) : RepState :=
  runFrom cfg RepState.reset 0 angles

/-- The `rep_completed` flags returned by successive `update` calls. -/
def runFlags (cfg : RepConfig) (s : RepState) (i : ℕ) : List ℚ → List Bool
  | [] => []
  | a :: rest =>
      (update cfg s a i).2 :: runFlags cfg (update cfg s a i).1 (i + 1) rest

/-- The configuration of claim C1: the constructor defaults of
`AngleRepCounter`. -/
def c1cfg : RepConfig :=
  { down_threshold := 160, up_threshold := 40,
    min_frames_down := 3, min_frames_up := 3 }

/-- The angle sequence of claim C1. -/
def c1seq : List ℚ := [170, 170, 170, 170, 170, 20, 20, 20, 20, 20]

/-- `hasRun3 p l` holds when some three consecutive elements of `l` all
satisfy `p`; its negation says at most 2 consecutive frames qualify. -/
def hasRun3 (p : ℚ → Bool) : List ℚ → Bool
  | a :: b :: c :: rest => (p a && p b && p c) || hasRun3 p (b :: c :: rest)
  | _ => false

/-- Length of the longest qualifying prefix. -/
def leadCount (p : ℚ → Bool) : List ℚ → ℕ
  | [] => 0
  | a :: rest => if p a then leadCount p rest + 1 else 0

/-- A frame qualifies for the DOWN phase when its angle exceeds
`down_threshold`. -/
def qualDown (cfg : RepConfig) (a : ℚ) : Bool := cfg.down_threshold < a

/-- A frame qualifies for the UP phase when its angle is below
`up_threshold`. -/
def qualUp (cfg : RepConfig) (a : ℚ) : Bool := a < cfg.up_threshold

theorem hasRun3_tail {p : ℚ → Bool} {a : ℚ} {l : List ℚ}
    (h : hasRun3 p (a :: l) = false) : hasRun3 p l = false := by
  match l with
  | [] => rfl
  | [b] => rfl
  | b :: c :: rest =>
      simp only [hasRun3, Bool.or_eq_false_iff] at h
      exact h.2

theorem leadCount_le_two {p : ℚ → Bool} {l : List ℚ}
    (h : hasRun3 p l = false) : leadCount p l ≤ 2 := by
  match l with
  | [] => simp [leadCount]
  | [a] => by_cases hp : p a <;> simp [leadCount, hp]
  | [a, b] =>
      by_cases hp : p a <;> by_cases hq : p b <;> simp [leadCount, hp, hq]
  | a :: b :: c :: rest =>
      simp only [hasRun3, Bool.or_eq_false_iff, Bool.and_eq_false_iff] at h
      by_cases hp : p a
      · by_cases hq : p b
        · have hc : p c = false := by
            rcases h.1 with h1 | h1
            · rcases h1 with h1 | h1 <;> simp_all
            · exact h1
          simp [leadCount, hp, hq, hc]
        · simp [leadCount, hp, hq]
      · simp [leadCount, hp]

/-- Core lemma for the second half of C1: starting from the `"start"` stage
with counters dominated by the remaining qualifying runs, and no run of 3
qualifying frames ahead, the counter never counts a rep.  Specialised to the
claim's configuration (`min_frames` bounds 3, thresholds 160/40). -/
theorem runFrom_start_no_rep (l : List ℚ) :
    ∀ (d u : ℕ) (hist : List ℚ) (ts : List ℕ) (i : ℕ),
    hasRun3 (qualDown c1cfg) l = false → hasRun3 (qualUp c1cfg) l = false →
    d + leadCount (qualDown c1cfg) l ≤ 2 → u + leadCount (qualUp c1cfg) l ≤ 2 →
    (runFrom c1cfg ⟨.start, 0, d, u, hist, ts⟩ i l).rep_count = 0 := by
  induction l with
  | nil => intro d u hist ts i _ _ _ _; rfl
  | cons a rest ih =>
      intro d u hist ts i hD hU hd hu
      by_cases h1 : (160 : ℚ) < a
      · have h2 : ¬ (a < (40 : ℚ)) := by linarith
        have hlead : leadCount (qualDown c1cfg) (a :: rest)
            = leadCount (qualDown c1cfg) rest + 1 := by
          simp [leadCount, qualDown, c1cfg, h1]
        rw [hlead] at hd
        have hd3 : ¬ ((3 : ℕ) ≤ d + 1) := by omega
        have hstep : runFrom c1cfg ⟨.start, 0, d, u, hist, ts⟩ i (a :: rest)
            = runFrom c1cfg ⟨.start, 0, d + 1, 0, hist ++ [a], ts⟩
                (i + 1) rest := by
          simp [runFrom, update, c1cfg, h1, h2, hd3]
        rw [hstep]
        exact ih (d + 1) 0 (hist ++ [a]) ts (i + 1)
          (hasRun3_tail hD) (hasRun3_tail hU) (by omega)
          (by have := leadCount_le_two (hasRun3_tail hU); omega)
      · by_cases h2 : a < (40 : ℚ)
        · have hlead : leadCount (qualUp c1cfg) (a :: rest)
              = leadCount (qualUp c1cfg) rest + 1 := by
            simp [leadCount, qualUp, c1cfg, h2]
          rw [hlead] at hu
          have hstep : runFrom c1cfg ⟨.start, 0, d, u, hist, ts⟩ i (a :: rest)
              = runFrom c1cfg ⟨.start, 0, 0, u + 1, hist ++ [a], ts⟩
                  (i + 1) rest := by
            simp [runFrom, update, c1cfg, h1, h2]
          rw [hstep]
          exact ih 0 (u + 1) (hist ++ [a]) ts (i + 1)
            (hasRun3_tail hD) (hasRun3_tail hU)
            (by have := leadCount_le_two (hasRun3_tail hD); omega) (by omega)
        · have hstep : runFrom c1cfg ⟨.start, 0, d, u, hist, ts⟩ i (a :: rest)
              = runFrom c1cfg ⟨.start, 0, 0, 0, hist ++ [a], ts⟩
                  (i + 1) rest := by
            simp [runFrom, update, c1cfg, h1, h2]
          rw [hstep]
          exact ih 0 0 (hist ++ [a]) ts (i + 1)
            (hasRun3_tail hD) (hasRun3_tail hU)
            (by have := leadCount_le_two (hasRun3_tail hD); omega)
            (by have := leadCount_le_two (hasRun3_tail hU); omega)

/-- C1: with the default configuration (down_threshold 160, up_threshold 40,
min_frames_down 3, min_frames_up 3), the angle sequence
[170,170,170,170,170,20,20,20,20,20] fed through `update` with frame indices
0–9 yields exactly one completed repetition, reported at index 7, with the
stage moving from "start" to "down" on the update at index 2 and from "down"
to "up" on the update at index 7; and any sequence in which at most 2
consecutive frames qualify for each phase (angle > 160, resp. angle < 40)
yields rep_count = 0. -/
theorem c1_rep_counter_scenario :
    (run c1cfg c1seq).rep_count = 1 ∧
    (run c1cfg c1seq).rep_timestamps = [7] ∧
    (run c1cfg (c1seq.take 2)).stage = .start ∧
    (run c1cfg (c1seq.take 3)).stage = .down ∧
    (run c1cfg (c1seq.take 7)).stage = .down ∧
    (run c1cfg (c1seq.take 8)).stage = .up ∧
    runFlags c1cfg RepState.reset 0 c1seq
      = [false, false, false, false, false, false, false, true, false, false] ∧
    ∀ angles : List ℚ,
      hasRun3 (qualDown c1cfg) angles = false →
      hasRun3 (qualUp c1cfg) angles = false →
      (run c1cfg angles).rep_count = 0 := by
  refine ⟨by decide, by decide, by decide, by decide, by decide, by decide,
    by decide, ?_⟩
  intro angles hD hU
  exact runFrom_start_no_rep angles 0 0 [] [] 0 hD hU
    (by simpa using leadCount_le_two hD) (by simpa using leadCount_le_two hU)

/-- Witness for C1: the final conjunct applied to a concrete sequence with
runs of length 2. -/
theorem c1_witness :
    hasRun3 (qualDown c1cfg) [100, 170, 170, 30, 30] = false ∧
    hasRun3 (qualUp c1cfg) [100, 170, 170, 30, 30] = false ∧
    (run c1cfg [100, 170, 170, 30, 30]).rep_count = 0 :=
  ⟨by decide, by decide,
    c1_rep_counter_scenario.2.2.2.2.2.2.2 [100, 170, 170, 30, 30]
      (by decide) (by decide)⟩

/-! ### C10: spacing of `rep_timestamps` -/

/-- Invariant of the counting state machine after processing frames
`0, …, i-1` with consecutive frame indices: rep timestamps are spaced at
least `min_frames_down + min_frames_up` apart, are all in the past, and the
phase counters are small enough that the next completion cannot fire too
early. -/
structure RepInv (cfg : RepConfig) (s : RepState) (i : ℕ) : Prop where
  chain : List.Chain'
    (fun a b => a + cfg.min_frames_down + cfg.min_frames_up ≤ b)
    s.rep_timestamps
  bounded : ∀ t ∈ s.rep_timestamps, t < i
  startEmpty : s.stage = .start → s.rep_timestamps = []
  upGap : s.stage = .up → ∀ last, s.rep_timestamps.getLast? = some last →
    s.down_frames + last < i
  downGap : s.stage = .down → ∀ last, s.rep_timestamps.getLast? = some last →
    last + cfg.min_frames_down + s.up_frames < i

theorem repInv_reset (cfg : RepConfig) : RepInv cfg RepState.reset 0 := by
  refine ⟨List.chain'_nil, ?_, fun _ => rfl, ?_, ?_⟩ <;> intro h <;> simp_all [RepState.reset]

theorem repInv_step (cfg : RepConfig) (hmd : 1 ≤ cfg.min_frames_down)
    (hmu : 1 ≤ cfg.min_frames_up) (s : RepState) (i : ℕ) (a : ℚ)
    (h : RepInv cfg s i) : RepInv cfg (update cfg s a i).1 (i + 1) := by
  obtain ⟨stage, rc, d, u, hist, ts⟩ := s
  obtain ⟨hchain, hbound, hstart, hup, hdown⟩ := h
  simp only at hstart hup hdown
  have hbound' : ∀ t ∈ ts, t < i + 1 := fun t ht => Nat.lt_succ_of_lt (hbound t ht)
  by_cases hA : cfg.down_threshold < a
  · -- down-qualifying frame: down_frames := d + 1, up_frames := 0
    cases stage with
    | start =>
        have hts : ts = [] := hstart rfl
        subst hts
        simp only [update, if_pos hA]
        split
        · exact ⟨List.chain'_nil, by simp, by simp, by simp, by simp⟩
        · exact ⟨List.chain'_nil, by simp, by simp, by simp, by simp⟩
    | up =>
        simp only [update, if_pos hA]
        split
        · next hcond =>
            -- transition UP → DOWN
            refine ⟨hchain, hbound', by simp, by simp, ?_⟩
            intro _ last hlast
            have := hup rfl last hlast
            show last + cfg.min_frames_down + 0 < i + 1
            omega
        · next hcond =>
            refine ⟨hchain, hbound', by simp, ?_, by simp⟩
            intro _ last hlast
            have := hup rfl last hlast
            simp only
            omega
    | down =>
        -- from DOWN, the completion test is up_frames ≥ min_frames_up with
        -- up_frames = 0 < min_frames_up, so the stage is unchanged
        have hne : ¬ (cfg.min_frames_up ≤ 0) := by omega
        simp only [update, if_pos hA, hne, if_false]
        refine ⟨hchain, hbound', by simp, by simp, ?_⟩
        intro _ last hlast
        have := hdown rfl last hlast
        simp only
        omega
  · by_cases hB : a < cfg.up_threshold
    · -- up-qualifying frame: up_frames := u + 1, down_frames := 0
      cases stage with
      | start =>
          have hts : ts = [] := hstart rfl
          subst hts
          have hne : ¬ (cfg.min_frames_down ≤ 0) := by omega
          simp only [update, if_neg hA, if_pos hB, hne, if_false]
          exact ⟨List.chain'_nil, by simp, by simp, by simp, by simp⟩
      | up =>
          have hne : ¬ (cfg.min_frames_down ≤ 0) := by omega
          simp only [update, if_neg hA, if_pos hB, hne, if_false]
          refine ⟨hchain, hbound', by simp, ?_, by simp⟩
          intro _ last hlast
          have := hbound last (List.mem_of_mem_getLast? hlast)
          simp only
          omega
      | down =>
          simp only [update, if_neg hA, if_pos hB]
          split
          · next hcond =>
              -- completion: DOWN → UP, timestamp i appended
              refine ⟨?_, ?_, by simp, ?_, by simp⟩
              · rw [List.chain'_append]
                refine ⟨hchain, List.chain'_singleton _, ?_⟩
                intro x hx y hy
                simp only [List.head?_cons, Option.mem_def, Option.some.injEq] at hy
                subst hy
                have := hdown rfl x hx
                omega
              · intro t ht
                simp only [List.mem_append, List.mem_singleton] at ht
                rcases ht with ht | ht
                · exact hbound' t ht
                · omega
              · intro _ last hlast
                simp at hlast
                show 0 + last < i + 1
                omega
          · next hcond =>
              refine ⟨hchain, hbound', by simp, by simp, ?_⟩
              intro _ last hlast
              have := hdown rfl last hlast
              simp only
              omega
    · -- dead zone: both counters reset
      cases stage with
      | start =>
          have hts : ts = [] := hstart rfl
          subst hts
          have hne : ¬ (cfg.min_frames_down ≤ 0) := by omega
          simp only [update, if_neg hA, if_neg hB, hne, if_false]
          exact ⟨List.chain'_nil, by simp, by simp, by simp, by simp⟩
      | up =>
          have hne : ¬ (cfg.min_frames_down ≤ 0) := by omega
          simp only [update, if_neg hA, if_neg hB, hne, if_false]
          refine ⟨hchain, hbound', by simp, ?_, by simp⟩
          intro _ last hlast
          have := hbound last (List.mem_of_mem_getLast? hlast)
          simp only
          omega
      | down =>
          have hne : ¬ (cfg.min_frames_up ≤ 0) := by omega
          simp only [update, if_neg hA, if_neg hB, hne, if_false]
          refine ⟨hchain, hbound', by simp, by simp, ?_⟩
          intro _ last hlast
          have := hdown rfl last hlast
          simp only
          omega

theorem repInv_runFrom (cfg : RepConfig) (hmd : 1 ≤ cfg.min_frames_down)
    (hmu : 1 ≤ cfg.min_frames_up) :
    ∀ (l : List ℚ) (s : RepState) (i : ℕ), RepInv cfg s i →
      RepInv cfg (runFrom cfg s i l) (i + l.length) := by
  intro l
  induction l with
  | nil => intro s i h; simpa using h
  | cons a rest ih =>
      intro s i h
      have h1 := repInv_step cfg hmd hmu s i a h
      have h2 := ih (update cfg s a i).1 (i + 1) h1
      simpa [runFrom, Nat.add_comm, Nat.add_assoc, Nat.add_left_comm] using h2

/-- C10: for every configuration with `min_frames_down ≥ 1` and
`min_frames_up ≥ 1` and every angle sequence fed through `update` with
consecutive frame indices starting at 0, any two consecutive entries of
`rep_timestamps` differ by at least `min_frames_down + min_frames_up`; in
particular `rep_timestamps` is strictly increasing. -/
theorem c10_rep_timestamp_spacing (cfg : RepConfig) (angles : List ℚ)
    (hmd : 1 ≤ cfg.min_frames_down) (hmu : 1 ≤ cfg.min_frames_up) :
    List.Chain'
      (fun a b => a + cfg.min_frames_down + cfg.min_frames_up ≤ b)
      (run cfg angles).rep_timestamps ∧
    List.Chain' (· < ·) (run cfg angles).rep_timestamps := by
  have h := repInv_runFrom cfg hmd hmu angles RepState.reset 0 (repInv_reset cfg)
  refine ⟨h.chain, h.chain.imp ?_⟩
  intro a b hab
  omega

/-- Witness for C10: the spacing theorem applied to the C1 configuration and
sequence, whose single timestamp trivially satisfies both chains. -/
theorem c10_witness :
    List.Chain'
      (fun a b => a + c1cfg.min_frames_down + c1cfg.min_frames_up ≤ b)
      (run c1cfg c1seq).rep_timestamps ∧
    List.Chain' (· < ·) (run c1cfg c1seq).rep_timestamps :=
  c10_rep_timestamp_spacing c1cfg c1seq (by decide) (by decide)

/-! ### Form analyzer (form_analyzer.py, class AngleFormAnalyzer)

The per-rep analysis `analyze_rep` mixes transcendental angle geometry with
aggregation; the claims about `analyze_video` and `_generate_feedback` only
concern the aggregation, so `analyze_rep` is abstracted as a function
argument producing a `RepResult`. -/

/-- One element of the `checks` list produced by `_apply_check`. -/
structure CheckResult where
  name : String
  value : ℚ
  score : ℚ
  quality : String
  feedback : String
deriving DecidableEq, Repr

/-- The dict returned by `analyze_rep`: weighted rep score and per-check
results (the `angle_stats` entry is not needed by any claim). -/
structure RepResult where
  rep_score : ℚ
  checks : List CheckResult
deriving DecidableEq, Repr

/-- The dict returned by `analyze_video` (the `total_reps` key, present only
on the success path, is omitted: no claim mentions it). -/
structure VideoResult where
  form_score : ℤ
  feedback : List String
  quality : String
  rep_scores : List ℚ
  rep_details : List RepResult
deriving DecidableEq, Repr

/-- Python `int()` on a float: truncation toward zero. -/
def pyInt (q : ℚ) : ℤ := if 0 ≤ q then ⌊q⌋ else ⌈q⌉

/-- The slices `all_keypoints[prev_idx : rep_end_idx + 1]` built by the
segmentation loop of `analyze_video`; `prev` starts at 0 and becomes
`rep_end_idx + 1` after each boundary. -/
def segmentFrom (frames : List α) (prev : ℕ) : List ℕ → List (List α)
  | [] => []
  | t :: rest =>
      (frames.drop prev).take (t + 1 - prev) :: segmentFrom frames (t + 1) rest

/-- All windows cut out of `frames` by the boundary list. -/
def segmentWindows (frames : List α) (ts : List ℕ) : List (List α) :=
  segmentFrom frames 0 ts

/-- One insertion into `_generate_feedback`'s `violation_counts` dict:
an insertion-ordered association list mapping a check name to its count and
the feedback string captured at first insertion. -/
def bump : List (String × ℕ × String) → String → String →
    List (String × ℕ × String)
  | [], name, fb => [(name, 1, fb)]
  | (n, c, f) :: rest, name, fb =>
      if n = name then (n, c + 1, f) :: rest
      else (n, c, f) :: bump rest name fb

/-- Processing one check in `_generate_feedback`'s tally loop: non-good
checks are tallied, good ones are skipped. -/
def checkStep (acc : List (String × ℕ × String)) (chk : CheckResult) :
    List (String × ℕ × String) :=
  if chk.quality ≠ "good" then bump acc chk.name chk.feedback else acc

/-- Processing one rep's checks in `_generate_feedback`'s tally loop. -/
def repStep (acc : List (String × ℕ × String)) (rep : RepResult) :
    List (String × ℕ × String) :=
  rep.checks.foldl checkStep acc

/-- The fully built `violation_counts` dict. -/
def collectViolations (reps : List RepResult) : List (String × ℕ × String) :=
  reps.foldl repStep []

/-- The f-string `"{feedback} ({count}/{total} reps)"`. -/
def feedbackLine (fb : String) (count total : ℕ) : String :=
  fb ++ " (" ++ Nat.repr count ++ "/" ++ Nat.repr total ++ " reps)"

/-- `AngleFormAnalyzer._generate_feedback`. -/
def generate_feedback (reps : List RepResult) : List String :=
  let vc := collectViolations reps
  let total := reps.length
  let fb := vc.filterMap (fun e =>
    if (3 : ℚ) / 10 < (e.2.1 : ℚ) / (total : ℚ) then
      some (feedbackLine e.2.2 e.2.1 total)
    else none)
  if fb.isEmpty then ["Excellent form! Keep it up!"] else fb

/-- The tail of `analyze_video` after `rep_results` has been collected:
either the degenerate zero-window result or the aggregated scores. -/
def aggregateResults (rep_results : List RepResult) : VideoResult :=
  if rep_results.isEmpty then
    { form_score := 0, feedback := ["Video too short or no reps detected"],
      quality := "poor", rep_scores := [], rep_details := [] }
  else
    let rep_scores := rep_results.map (fun r => r.rep_score)
    let overall := rep_scores.sum / (rep_scores.length : ℚ)
    { form_score := pyInt (overall * 100),
      feedback := generate_feedback rep_results,
      quality :=
        if (9 : ℚ) / 10 ≤ overall then "excellent"
        else if (3 : ℚ) / 4 ≤ overall then "good"
        else if (3 : ℚ) / 5 ≤ overall then "acceptable"
        else "poor",
      rep_scores := rep_scores,
      rep_details := rep_results }

/-- `AngleFormAnalyzer.analyze_video`, with `analyze_rep` abstracted as the
argument `analyzeRep`: a window is analyzed exactly when it has more than 5
frames. -/
def analyze_video (analyzeRep : List α → RepResult) (frames : List α)
    (rep_timestamps : List ℕ) : VideoResult :=
  let ts := if rep_timestamps.isEmpty then [frames.length - 1]
            else rep_timestamps
  aggregateResults
    (((segmentWindows frames ts).filter (fun w => 5 < w.length)).map
      analyzeRep)

/-- A stub `analyze_rep` returning a constant score with no checks, used to
instantiate the abstracted per-rep analysis on concrete inputs. -/
def constRep (q : ℚ) : List Unit → RepResult :=
  fun _ => { rep_score := q, checks := [] }

/-! ### C2: overall form score and quality tiers -/

theorem aggregateResults_ne {rep_results : List RepResult}
    (h : rep_results ≠ []) :
    aggregateResults rep_results =
      { form_score := pyInt ((rep_results.map (fun r => r.rep_score)).sum
          / (((rep_results.map (fun r => r.rep_score)).length : ℚ)) * 100),
        feedback := generate_feedback rep_results,
        quality :=
          (if (9 : ℚ) / 10 ≤ (rep_results.map (fun r => r.rep_score)).sum
              / (((rep_results.map (fun r => r.rep_score)).length : ℚ))
           then "excellent"
           else if (3 : ℚ) / 4 ≤ (rep_results.map (fun r => r.rep_score)).sum
              / (((rep_results.map (fun r => r.rep_score)).length : ℚ))
           then "good"
           else if (3 : ℚ) / 5 ≤ (rep_results.map (fun r => r.rep_score)).sum
              / (((rep_results.map (fun r => r.rep_score)).length : ℚ))
           then "acceptable"
           else "poor"),
        rep_scores := rep_results.map (fun r => r.rep_score),
        rep_details := rep_results } := by
  rw [aggregateResults, if_neg]
  simp [h]

/-- The quality tiers assigned from the mean score `o` agree with integer
thresholds on the truncated score `int(o*100)` as long as `o` is
nonnegative. -/
theorem qualityTier_spec (o : ℚ) (ho : 0 ≤ o) :
    ((if (9 : ℚ) / 10 ≤ o then "excellent"
      else if (3 : ℚ) / 4 ≤ o then "good"
      else if (3 : ℚ) / 5 ≤ o then "acceptable"
      else "poor") = "excellent" ↔ 90 ≤ pyInt (o * 100)) ∧
    ((if (9 : ℚ) / 10 ≤ o then "excellent"
      else if (3 : ℚ) / 4 ≤ o then "good"
      else if (3 : ℚ) / 5 ≤ o then "acceptable"
      else "poor") = "good"
        ↔ 75 ≤ pyInt (o * 100) ∧ pyInt (o * 100) < 90) ∧
    ((if (9 : ℚ) / 10 ≤ o then "excellent"
      else if (3 : ℚ) / 4 ≤ o then "good"
      else if (3 : ℚ) / 5 ≤ o then "acceptable"
      else "poor") = "acceptable"
        ↔ 60 ≤ pyInt (o * 100) ∧ pyInt (o * 100) < 75) ∧
    ((if (9 : ℚ) / 10 ≤ o then "excellent"
      else if (3 : ℚ) / 4 ≤ o then "good"
      else if (3 : ℚ) / 5 ≤ o then "acceptable"
      else "poor") = "poor" ↔ pyInt (o * 100) < 60) := by
  have hpy : pyInt (o * 100) = ⌊o * 100⌋ := by
    rw [pyInt, if_pos]
    positivity
  rw [hpy]
  have h90 : (90 : ℤ) ≤ ⌊o * 100⌋ ↔ (9 : ℚ) / 10 ≤ o := by
    rw [Int.le_floor]
    push_cast
    constructor <;> intro h <;> linarith
  have h75 : (75 : ℤ) ≤ ⌊o * 100⌋ ↔ (3 : ℚ) / 4 ≤ o := by
    rw [Int.le_floor]
    push_cast
    constructor <;> intro h <;> linarith
  have h60 : (60 : ℤ) ≤ ⌊o * 100⌋ ↔ (3 : ℚ) / 5 ≤ o := by
    rw [Int.le_floor]
    push_cast
    constructor <;> intro h <;> linarith
  split_ifs with h1 h2 h3
  · have a90 : (90 : ℤ) ≤ ⌊o * 100⌋ := h90.mpr h1
    refine ⟨iff_of_true rfl a90, ?_, ?_, ?_⟩
    · exact iff_of_false (by decide) (fun hc => absurd hc.2 (by omega))
    · exact iff_of_false (by decide) (fun hc => absurd hc.2 (by omega))
    · exact iff_of_false (by decide) (by omega)
  · have a75 : (75 : ℤ) ≤ ⌊o * 100⌋ := h75.mpr h2
    have b90 : ¬ (90 : ℤ) ≤ ⌊o * 100⌋ := fun hh => h1 (h90.mp hh)
    refine ⟨iff_of_false (by decide) b90, iff_of_true rfl ⟨a75, by omega⟩,
      ?_, ?_⟩
    · exact iff_of_false (by decide) (fun hc => absurd hc.2 (by omega))
    · exact iff_of_false (by decide) (by omega)
  · have a60 : (60 : ℤ) ≤ ⌊o * 100⌋ := h60.mpr h3
    have b75 : ¬ (75 : ℤ) ≤ ⌊o * 100⌋ := fun hh => h2 (h75.mp hh)
    have b90 : ¬ (90 : ℤ) ≤ ⌊o * 100⌋ := fun hh => h1 (h90.mp hh)
    refine ⟨iff_of_false (by decide) b90,
      iff_of_false (by decide) (fun hc => absurd hc.1 b75),
      iff_of_true rfl ⟨a60, by omega⟩,
      iff_of_false (by decide) (by omega)⟩
  · have b60 : ¬ (60 : ℤ) ≤ ⌊o * 100⌋ := fun hh => h3 (h60.mp hh)
    have b75 : ¬ (75 : ℤ) ≤ ⌊o * 100⌋ := fun hh => h2 (h75.mp hh)
    have b90 : ¬ (90 : ℤ) ≤ ⌊o * 100⌋ := fun hh => h1 (h90.mp hh)
    refine ⟨iff_of_false (by decide) b90,
      iff_of_false (by decide) (fun hc => absurd hc.1 b75),
      iff_of_false (by decide) (fun hc => absurd hc.1 b60),
      iff_of_true rfl (by omega)⟩

/-- C2 counterexample: `analyze_video` truncates `100 × mean` with `int()`
rather than rounding to the nearest integer.  One analyzed rep of score 7/8
gives mean 7/8, `round (100 × 7/8) = 88`, but `form_score` is 87. -/
theorem c2_counterexample :
    (analyze_video (constRep (7/8)) (List.replicate 7 ()) [6]).rep_scores
        = [7/8] ∧
    round ((100 : ℚ) * (7/8)) = 88 ∧
    (analyze_video (constRep (7/8)) (List.replicate 7 ()) [6]).form_score
        = 87 ∧
    ¬ ((analyze_video (constRep (7/8)) (List.replicate 7 ()) [6]).form_score
        = round ((100 : ℚ) * (7/8))) := by
  refine ⟨?_, ?_, ?_, ?_⟩
  · norm_num [analyze_video, aggregateResults, segmentWindows, segmentFrom,
      constRep, List.replicate]
  · norm_num [round_eq]
  · norm_num [analyze_video, aggregateResults, segmentWindows, segmentFrom,
      constRep, pyInt, List.replicate]
  · norm_num [analyze_video, aggregateResults, segmentWindows, segmentFrom,
      constRep, pyInt, round_eq, List.replicate]

/-- C2 amended: for every input with at least one analyzed rep, the overall
`form_score` is `int(100 × mean(rep_scores))` — truncation toward zero, not
rounding — and, whenever the per-rep scores are nonnegative (as the analyzer
always produces), the quality tier is "excellent" iff `form_score ≥ 90`,
"good" iff `75 ≤ form_score < 90`, "acceptable" iff `60 ≤ form_score < 75`,
and "poor" iff `form_score < 60`. -/
theorem c2_form_score {α : Type} (A : List α → RepResult) (frames : List α)
    (ts : List ℕ) (h : (analyze_video A frames ts).rep_details ≠ []) :
    (analyze_video A frames ts).form_score
      = pyInt (100 * ((analyze_video A frames ts).rep_scores.sum
          / ((analyze_video A frames ts).rep_scores.length : ℚ))) ∧
    ((∀ q ∈ (analyze_video A frames ts).rep_scores, 0 ≤ q) →
      (((analyze_video A frames ts).quality = "excellent"
          ↔ 90 ≤ (analyze_video A frames ts).form_score) ∧
       ((analyze_video A frames ts).quality = "good"
          ↔ 75 ≤ (analyze_video A frames ts).form_score
            ∧ (analyze_video A frames ts).form_score < 90) ∧
       ((analyze_video A frames ts).quality = "acceptable"
          ↔ 60 ≤ (analyze_video A frames ts).form_score
            ∧ (analyze_video A frames ts).form_score < 75) ∧
       ((analyze_video A frames ts).quality = "poor"
          ↔ (analyze_video A frames ts).form_score < 60))) := by
  rw [analyze_video] at *
  set rep_results :=
    ((segmentWindows frames
        (if ts.isEmpty then [frames.length - 1] else ts)).filter
      (fun w => 5 < w.length)).map A with hreps
  have hne : rep_results ≠ [] := by
    intro hc
    rw [hc] at h
    exact h rfl
  rw [aggregateResults_ne hne] at *
  set o := (rep_results.map (fun r => r.rep_score)).sum
      / (((rep_results.map (fun r => r.rep_score)).length : ℚ)) with ho
  constructor
  · simp only
    rw [mul_comm]
  · intro hq
    simp only at hq ⊢
    have ho0 : 0 ≤ o := by
      rw [ho]
      apply div_nonneg
      · exact List.sum_nonneg hq
      · positivity
    exact qualityTier_spec o ho0

/-- Witness for C2: the amended statement applied to one rep of score 3/4;
the truncated score is 75 and the tier is "good". -/
theorem c2_witness :
    (analyze_video (constRep (3/4)) (List.replicate 7 ()) [6]).form_score
        = 75 ∧
    (analyze_video (constRep (3/4)) (List.replicate 7 ()) [6]).quality
        = "good" := by
  have h := c2_form_score (constRep (3/4)) (List.replicate 7 ()) [6]
    (by norm_num [analyze_video, aggregateResults, segmentWindows,
      segmentFrom, constRep, List.replicate])
  have h2 := (h.2 (by
    norm_num [analyze_video, aggregateResults, segmentWindows, segmentFrom,
      constRep, List.replicate])).2.1
  refine ⟨?_, ?_⟩
  · norm_num [analyze_video, aggregateResults, segmentWindows, segmentFrom,
      constRep, pyInt, List.replicate]
  · apply h2.mpr
    constructor <;>
      norm_num [analyze_video, aggregateResults, segmentWindows, segmentFrom,
        constRep, pyInt, List.replicate]

/-! ### C3: window segmentation and the minimum-frame filter -/

theorem segmentFrom_length (frames : List α) (ts : List ℕ) :
    ∀ (prev : ℕ), (segmentFrom frames prev ts).length = ts.length := by
  induction ts with
  | nil => intro prev; rfl
  | cons t rest ih =>
      intro prev
      simp only [segmentFrom, List.length_cons, ih (t + 1)]

theorem segmentFrom_join (frames : List α) (ts : List ℕ) :
    ∀ (prev : ℕ) (hne : ts ≠ []), List.Pairwise (· < ·) ts →
      (∀ t ∈ ts, prev ≤ t) →
      (segmentFrom frames prev ts).flatten
        = (frames.drop prev).take (ts.getLast hne + 1 - prev) := by
  induction ts with
  | nil => intro prev hne; exact absurd rfl hne
  | cons t rest ih =>
      intro prev hne hpw hle
      cases rest with
      | nil => simp [segmentFrom, List.flatten]
      | cons t2 rest2 =>
          have hne2 : (t2 :: rest2) ≠ [] := by simp
          have hlt : ∀ r ∈ t2 :: rest2, t < r := (List.pairwise_cons.mp hpw).1
          have hj := ih (t + 1) hne2 hpw.of_cons (fun r hr => hlt r hr)
          have hglast : (t :: t2 :: rest2).getLast hne
              = (t2 :: rest2).getLast hne2 := List.getLast_cons hne2
          have h1 : prev ≤ t := hle t (List.mem_cons_self t _)
          have h2 : t + 1 ≤ (t2 :: rest2).getLast hne2 :=
            hlt _ (List.getLast_mem hne2)
          show (frames.drop prev).take (t + 1 - prev)
              ++ (segmentFrom frames (t + 1) (t2 :: rest2)).flatten = _
          rw [hj, hglast]
          have e1 : (frames.drop prev).drop (t + 1 - prev)
              = frames.drop (t + 1) := by
            rw [List.drop_drop]
            congr 1
            omega
          rw [← e1]
          have e2 : (t2 :: rest2).getLast hne2 + 1 - prev
              = (t + 1 - prev) + ((t2 :: rest2).getLast hne2 + 1 - (t + 1)) :=
            by omega
          rw [e2, List.take_add]

theorem aggregateResults_rep_details (rs : List RepResult) :
    (aggregateResults rs).rep_details = rs := by
  by_cases h : rs = []
  · subst h; rfl
  · rw [aggregateResults_ne h]

/-- C3 counterexample: a window of exactly 5 frames is NOT analyzed — the
code keeps a window only when it has more than 5 frames
(`if len(rep_keypoints) > 5`), so the claimed "fewer than 5 frames" cutoff
is off by one.  Five frames and a single boundary at index 4 give one
5-frame window yet no analyzed rep. -/
theorem c3_counterexample :
    (segmentWindows (List.replicate 5 ()) [4]) = [List.replicate 5 ()] ∧
    (List.replicate 5 ()).length = 5 ∧
    (analyze_video (constRep 1) (List.replicate 5 ()) [4]).rep_details = [] ∧
    (analyze_video (constRep 1) (List.replicate 5 ()) [4]).rep_scores
        = [] := by
  refine ⟨by decide, by decide, ?_, ?_⟩ <;>
    norm_num [analyze_video, aggregateResults, segmentWindows, segmentFrom,
      constRep, List.replicate]

/-- C3 amended: for a nonempty strictly increasing boundary list the windows
are consecutive and non-overlapping — one window per boundary, jointly
covering the frames up to and including the last boundary — and a window is
analyzed if and only if it has MORE than 5 frames (at least 6): the analyzed
reps are exactly the over-5-frame windows in order. -/
theorem c3_window_partition {α : Type} (A : List α → RepResult)
    (frames : List α) (ts : List ℕ) (hne : ts ≠ [])
    (hsorted : List.Pairwise (· < ·) ts) :
    (segmentWindows frames ts).length = ts.length ∧
    (segmentWindows frames ts).flatten = frames.take (ts.getLast hne + 1) ∧
    (analyze_video A frames ts).rep_details
      = ((segmentWindows frames ts).filter (fun w => 5 < w.length)).map A := by
  have hf : ts.isEmpty = false := by
    cases ts
    · exact absurd rfl hne
    · rfl
  refine ⟨segmentFrom_length frames ts 0, ?_, ?_⟩
  · have h := segmentFrom_join frames ts 0 hne hsorted
      (fun t _ => Nat.zero_le t)
    simpa [segmentWindows] using h
  · simp [analyze_video, hf, aggregateResults_rep_details]

/-- Witness for C3: two boundaries cutting 12 frames into two 6-frame
windows, both analyzed. -/
theorem c3_witness :
    (segmentWindows (List.replicate 12 ()) [5, 11]).length = 2 ∧
    (segmentWindows (List.replicate 12 ()) [5, 11]).flatten
        = (List.replicate 12 ()).take 12 ∧
    (analyze_video (constRep 1) (List.replicate 12 ()) [5, 11]).rep_details
      = ((segmentWindows (List.replicate 12 ()) [5, 11]).filter
          (fun w => 5 < w.length)).map (constRep 1) := by
  have h := c3_window_partition (constRep 1) (List.replicate 12 ())
    [5, 11] (by decide) (by decide)
  exact ⟨h.1, h.2.1, h.2.2⟩

/-! ### C8: zero valid windows -/

/-- C8 counterexample: the degenerate-result feedback string is
"Video too short or no reps detected", not the claimed
"too short or no repetitions detected". -/
theorem c8_counterexample :
    (analyze_video (constRep 1) (List.replicate 3 ()) [2]).feedback
        = ["Video too short or no reps detected"] ∧
    ¬ ((analyze_video (constRep 1) (List.replicate 3 ()) [2]).feedback
        = ["too short or no repetitions detected"]) := by
  constructor <;> decide

/-- C8 amended: whenever no window passes the minimum-frame filter the
result is form_score 0, quality "poor", the single feedback message
"Video too short or no reps detected", and empty per-rep score and detail
lists. -/
theorem c8_zero_valid_windows {α : Type} (A : List α → RepResult)
    (frames : List α) (ts : List ℕ)
    (h : (segmentWindows frames
        (if ts.isEmpty then [frames.length - 1] else ts)).filter
        (fun w => 5 < w.length) = []) :
    analyze_video A frames ts =
      { form_score := 0,
        feedback := ["Video too short or no reps detected"],
        quality := "poor", rep_scores := [], rep_details := [] } := by
  simp only [analyze_video]
  rw [h]
  rfl

/-- Witness for C8: three frames with one boundary — the only window is too
short, so the degenerate result is returned. -/
theorem c8_witness :
    analyze_video (constRep 1) (List.replicate 3 ()) [2] =
      { form_score := 0,
        feedback := ["Video too short or no reps detected"],
        quality := "poor", rep_scores := [], rep_details := [] } :=
  c8_zero_valid_windows (constRep 1) (List.replicate 3 ()) [2] (by decide)

/-! ### C6: aggregate feedback -/

/-- Number of analyzed reps in which some check named `n` scored
non-good. -/
def badCount (reps : List RepResult) (n : String) : ℕ :=
  (reps.filter (fun rep => rep.checks.any
    (fun c => decide (c.name = n) && decide (c.quality ≠ "good")))).length

/-- Number of non-good check results named `n` across all reps. -/
def badOcc (reps : List RepResult) (n : String) : ℕ :=
  (reps.map (fun rep => (rep.checks.filter
    (fun c => decide (c.name = n) && decide (c.quality ≠ "good"))).length)).sum

/-- Total count recorded under name `n` in a violation table. -/
def countOf (vc : List (String × ℕ × String)) (n : String) : ℕ :=
  ((vc.filter (fun e => decide (e.1 = n))).map (fun e => e.2.1)).sum

theorem countOf_cons (p : String) (c : ℕ) (g : String)
    (l : List (String × ℕ × String)) (n : String) :
    countOf ((p, c, g) :: l) n = (if p = n then c else 0) + countOf l n := by
  by_cases h : p = n <;> simp [countOf, List.filter_cons, h]

theorem countOf_bump (acc : List (String × ℕ × String)) (m f n : String) :
    countOf (bump acc m f) n
      = countOf acc n + (if m = n then 1 else 0) := by
  induction acc with
  | nil =>
      by_cases h : m = n <;> simp [bump, countOf_cons, countOf, h]
  | cons e rest ih =>
      obtain ⟨p, c, g⟩ := e
      by_cases hpm : p = m
      · subst hpm
        by_cases hpn : p = n <;>
          simp only [bump, if_pos rfl, countOf_cons, hpn, if_true, if_false,
            ite_true, ite_false] <;>
          omega
      · simp only [bump, if_neg hpm, countOf_cons, ih]
        omega

theorem countOf_checksFold (checks : List CheckResult) :
    ∀ (acc : List (String × ℕ × String)) (n : String),
      countOf (checks.foldl checkStep acc) n
        = countOf acc n + (checks.filter (fun c =>
            decide (c.name = n) && decide (c.quality ≠ "good"))).length := by
  induction checks with
  | nil => intro acc n; simp
  | cons chk rest ih =>
      intro acc n
      rw [List.foldl_cons, List.filter_cons, ih]
      by_cases hq : chk.quality = "good"
      · have hstep : checkStep acc chk = acc := by
          rw [checkStep, if_neg]
          simp [hq]
        rw [hstep]
        have hcond : (decide (chk.name = n)
            && decide (chk.quality ≠ "good")) = false := by
          simp [hq]
        rw [hcond]
        simp
      · have hstep : checkStep acc chk = bump acc chk.name chk.feedback := by
          rw [checkStep, if_pos hq]
        rw [hstep, countOf_bump]
        by_cases hn : chk.name = n
        · have hcond : (decide (chk.name = n)
              && decide (chk.quality ≠ "good")) = true := by
            simp [hq, hn]
          rw [hcond, if_pos hn]
          simp
          omega
        · have hcond : (decide (chk.name = n)
              && decide (chk.quality ≠ "good")) = false := by
            simp [hn]
          rw [hcond, if_neg hn]
          simp

theorem countOf_repStep (acc : List (String × ℕ × String)) (rep : RepResult)
    (n : String) :
    countOf (repStep acc rep) n
      = countOf acc n + (rep.checks.filter (fun c =>
          decide (c.name = n) && decide (c.quality ≠ "good"))).length :=
  countOf_checksFold rep.checks acc n

theorem countOf_repsFold (reps : List RepResult) :
    ∀ (acc : List (String × ℕ × String)) (n : String),
      countOf (reps.foldl repStep acc) n = countOf acc n + badOcc reps n := by
  induction reps with
  | nil => intro acc n; simp [badOcc]
  | cons rep rest ih =>
      intro acc n
      simp only [List.foldl_cons]
      rw [ih, countOf_repStep]
      simp only [badOcc, List.map_cons, List.sum_cons]
      omega

theorem countOf_collect (reps : List RepResult) (n : String) :
    countOf (collectViolations reps) n = badOcc reps n := by
  have h := countOf_repsFold reps [] n
  simpa [collectViolations, countOf] using h

theorem names_bump (acc : List (String × ℕ × String)) (m f : String) :
    (bump acc m f).map (fun e => e.1)
      = if m ∈ acc.map (fun e => e.1) then acc.map (fun e => e.1)
        else acc.map (fun e => e.1) ++ [m] := by
  induction acc with
  | nil => simp [bump]
  | cons e rest ih =>
      obtain ⟨p, c, g⟩ := e
      by_cases hpm : p = m
      · subst hpm
        simp [bump]
      · simp only [bump, if_neg hpm, List.map_cons, ih, List.mem_cons]
        have hmp : ¬ (m = p) := fun h => hpm h.symm
        by_cases hm : m ∈ rest.map (fun e => e.1) <;>
          simp [hm, hmp]

theorem names_nodup_bump (acc : List (String × ℕ × String)) (m f : String)
    (h : (acc.map (fun e => e.1)).Nodup) :
    ((bump acc m f).map (fun e => e.1)).Nodup := by
  rw [names_bump]
  split_ifs with hm
  · exact h
  · rw [List.nodup_append]
    exact ⟨h, List.nodup_singleton m, by simpa using hm⟩

theorem names_nodup_checksFold (checks : List CheckResult) :
    ∀ (acc : List (String × ℕ × String)),
      (acc.map (fun e => e.1)).Nodup →
      ((checks.foldl checkStep acc).map (fun e => e.1)).Nodup := by
  induction checks with
  | nil => intro acc h; exact h
  | cons chk rest ih =>
      intro acc h
      rw [List.foldl_cons]
      apply ih
      rw [checkStep]
      split_ifs
      · exact names_nodup_bump acc chk.name chk.feedback h
      · exact h

theorem names_nodup_collect (reps : List RepResult) :
    ((collectViolations reps).map (fun e => e.1)).Nodup := by
  rw [collectViolations]
  have h : ∀ (acc : List (String × ℕ × String)),
      (acc.map (fun e => e.1)).Nodup →
      ((reps.foldl repStep acc).map (fun e => e.1)).Nodup := by
    induction reps with
    | nil => intro acc h; exact h
    | cons rep rest ih =>
        intro acc hacc
        rw [List.foldl_cons]
        exact ih _ (names_nodup_checksFold rep.checks acc hacc)
  exact h [] (by simp)

theorem prov_bump (Q : String → String → Prop)
    (acc : List (String × ℕ × String)) (m f : String)
    (hacc : ∀ e ∈ acc, Q e.1 e.2.2) (hmf : Q m f) :
    ∀ e ∈ bump acc m f, Q e.1 e.2.2 := by
  induction acc with
  | nil =>
      intro e he
      simp only [bump, List.mem_singleton] at he
      subst he
      exact hmf
  | cons p rest ih =>
      obtain ⟨p1, c1, g1⟩ := p
      intro e he
      by_cases hpm : p1 = m
      · simp only [bump, if_pos hpm, List.mem_cons] at he
        rcases he with he | he
        · subst he
          exact hacc (p1, c1, g1) (List.mem_cons_self _ _)
        · exact hacc e (List.mem_cons_of_mem _ he)
      · simp only [bump, if_neg hpm, List.mem_cons] at he
        rcases he with he | he
        · subst he
          exact hacc (p1, c1, g1) (List.mem_cons_self _ _)
        · exact ih (fun x hx => hacc x (List.mem_cons_of_mem _ hx)) e he

theorem prov_checksFold (Q : String → String → Prop)
    (checks : List CheckResult) :
    ∀ (acc : List (String × ℕ × String)),
      (∀ e ∈ acc, Q e.1 e.2.2) →
      (∀ chk ∈ checks, chk.quality ≠ "good" → Q chk.name chk.feedback) →
      ∀ e ∈ checks.foldl checkStep acc, Q e.1 e.2.2 := by
  induction checks with
  | nil => intro acc hacc _ e he; exact hacc e he
  | cons chk rest ih =>
      intro acc hacc hchk
      rw [List.foldl_cons]
      apply ih
      · rw [checkStep]
        split_ifs with hq
        · exact prov_bump Q acc chk.name chk.feedback hacc
            (hchk chk (List.mem_cons_self _ _) hq)
        · exact hacc
      · intro c hc
        exact hchk c (List.mem_cons_of_mem _ hc)

theorem prov_collect (Q : String → String → Prop) (reps : List RepResult)
    (hq : ∀ rep ∈ reps, ∀ chk ∈ rep.checks,
        chk.quality ≠ "good" → Q chk.name chk.feedback) :
    ∀ e ∈ collectViolations reps, Q e.1 e.2.2 := by
  rw [collectViolations]
  have h : ∀ (l : List RepResult), (∀ rep ∈ l, rep ∈ reps) →
      ∀ (acc : List (String × ℕ × String)), (∀ e ∈ acc, Q e.1 e.2.2) →
      ∀ e ∈ l.foldl repStep acc, Q e.1 e.2.2 := by
    intro l
    induction l with
    | nil => intro _ acc hacc e he; exact hacc e he
    | cons rep rest ih =>
        intro hsub acc hacc
        rw [List.foldl_cons]
        apply ih (fun r hr => hsub r (List.mem_cons_of_mem _ hr))
        exact prov_checksFold Q rep.checks acc hacc
          (fun chk hc => hq rep (hsub rep (List.mem_cons_self _ _)) chk hc)
  exact h reps (fun r hr => hr) [] (by simp)

theorem countOf_eq_zero (vc : List (String × ℕ × String)) (n : String)
    (h : n ∉ vc.map (fun e => e.1)) : countOf vc n = 0 := by
  induction vc with
  | nil => rfl
  | cons e rest ih =>
      obtain ⟨p, c, g⟩ := e
      simp only [List.map_cons, List.mem_cons] at h
      push_neg at h
      rw [countOf_cons, if_neg (fun hc => h.1 hc.symm), ih h.2]

theorem countOf_eq_of_mem (vc : List (String × ℕ × String))
    (hnd : (vc.map (fun e => e.1)).Nodup) (n : String) (c : ℕ) (f : String)
    (h : (n, c, f) ∈ vc) : countOf vc n = c := by
  induction vc with
  | nil => cases h
  | cons e rest ih =>
      obtain ⟨p, q, g⟩ := e
      simp only [List.map_cons, List.nodup_cons] at hnd
      rcases List.mem_cons.mp h with h1 | h1
      · simp only [Prod.mk.injEq] at h1
        obtain ⟨hp, hq, hg⟩ := h1
        subst hp
        subst hq
        rw [countOf_cons, if_pos rfl, countOf_eq_zero rest n hnd.1]
        omega
      · have hp : p ≠ n := by
          intro hc
          apply hnd.1
          subst hc
          exact List.mem_map_of_mem (fun e => e.1) h1
        rw [countOf_cons, if_neg hp, ih hnd.2 h1, Nat.zero_add]

theorem exists_mem_of_countOf_pos (vc : List (String × ℕ × String))
    (n : String) (h : 0 < countOf vc n) : ∃ c f, (n, c, f) ∈ vc := by
  induction vc with
  | nil => simp [countOf] at h
  | cons e rest ih =>
      obtain ⟨p, c, g⟩ := e
      by_cases hp : p = n
      · subst hp
        exact ⟨c, g, List.mem_cons_self _ _⟩
      · rw [countOf_cons, if_neg hp, Nat.zero_add] at h
        obtain ⟨c1, f1, hm⟩ := ih h
        exact ⟨c1, f1, List.mem_cons_of_mem _ hm⟩

theorem noBad_of_not_mem (checks : List CheckResult) (n : String)
    (h : n ∉ checks.map (fun c => c.name)) :
    checks.filter
        (fun c => decide (c.name = n) && decide (c.quality ≠ "good")) = [] ∧
    checks.any
        (fun c => decide (c.name = n) && decide (c.quality ≠ "good"))
      = false := by
  induction checks with
  | nil => exact ⟨rfl, rfl⟩
  | cons c rest ih =>
      simp only [List.map_cons, List.mem_cons] at h
      push_neg at h
      have hc : (decide (c.name = n) && decide (c.quality ≠ "good"))
          = false := by
        have hne : ¬ (c.name = n) := fun hh => h.1 hh.symm
        simp [hne]
      obtain ⟨h1, h2⟩ := ih h.2
      constructor
      · rw [List.filter_cons, hc]
        simpa using h1
      · rw [List.any_cons, hc, Bool.false_or]
        exact h2

theorem badLen_of_nodup (checks : List CheckResult) (n : String)
    (hnd : (checks.map (fun c => c.name)).Nodup) :
    (checks.filter
        (fun c => decide (c.name = n) && decide (c.quality ≠ "good"))).length
      = if checks.any
            (fun c => decide (c.name = n) && decide (c.quality ≠ "good"))
        then 1 else 0 := by
  induction checks with
  | nil => rfl
  | cons c rest ih =>
      simp only [List.map_cons, List.nodup_cons] at hnd
      rw [List.filter_cons, List.any_cons]
      by_cases hn : c.name = n
      · subst hn
        obtain ⟨hf, ha⟩ := noBad_of_not_mem rest c.name hnd.1
        rw [hf, ha, Bool.or_false]
        by_cases hq : c.quality = "good"
        · have hc : (decide (c.name = c.name)
              && decide (c.quality ≠ "good")) = false := by simp [hq]
          rw [hc]
          simp
        · have hc : (decide (c.name = c.name)
              && decide (c.quality ≠ "good")) = true := by simp [hq]
          rw [hc]
          simp
      · have hc : (decide (c.name = n) && decide (c.quality ≠ "good"))
            = false := by simp [hn]
        rw [hc, Bool.false_or, if_neg Bool.false_ne_true, ih hnd.2]

theorem badOcc_eq_badCount (reps : List RepResult) (n : String)
    (h : ∀ rep ∈ reps, (rep.checks.map (fun c => c.name)).Nodup) :
    badOcc reps n = badCount reps n := by
  induction reps with
  | nil => rfl
  | cons rep rest ih =>
      have hrep := badLen_of_nodup rep.checks n
        (h rep (List.mem_cons_self _ _))
      have ih2 := ih (fun r hr => h r (List.mem_cons_of_mem _ hr))
      rw [badOcc, badCount] at ih2 ⊢
      rw [List.map_cons, List.sum_cons, hrep, List.filter_cons]
      cases hb : rep.checks.any
          (fun c => decide (c.name = n) && decide (c.quality ≠ "good")) with
      | false =>
          simp only [ne_eq, decide_not] at ih2
          simpa using ih2
      | true =>
          simp only [ne_eq, decide_not] at ih2
          simp only [if_pos rfl, List.length_cons]
          simp [ih2]
          omega

theorem feedback_filterMap (vc : List (String × ℕ × String)) (total : ℕ)
    (htot : 0 < total) :
    vc.filterMap (fun e =>
        if (3 : ℚ) / 10 < (e.2.1 : ℚ) / (total : ℚ) then
          some (feedbackLine e.2.2 e.2.1 total)
        else none)
      = (vc.filter (fun e => decide (3 * total < 10 * e.2.1))).map
          (fun e => feedbackLine e.2.2 e.2.1 total) := by
  induction vc with
  | nil => rfl
  | cons e rest ih =>
      have hiff : ((3 : ℚ) / 10 < (e.2.1 : ℚ) / (total : ℚ))
          ↔ 3 * total < 10 * e.2.1 := by
        rw [div_lt_div_iff₀ (by norm_num : (0 : ℚ) < 10)
          (by exact_mod_cast htot)]
        rw [mul_comm ((e.2.1 : ℚ)) 10]
        constructor <;> intro h <;> exact_mod_cast h
      simp only [List.filterMap_cons, List.filter_cons]
      by_cases hc : 3 * total < 10 * e.2.1
      · rw [if_pos (hiff.mpr hc)]
        simp [hc, ih]
      · rw [if_neg (fun hh => hc (hiff.mp hh))]
        simp [hc, ih]

/-- C6: for every nonempty rep list whose per-rep check names are unique,
the violation table maps each check name to the number of reps in which that
check scored non-good, together with the feedback string of an actual
non-good occurrence; every check that was ever non-good appears exactly
once; and the aggregate feedback consists of one line per check that was
non-good in strictly more than 30% of reps — the stored message followed by
" (k/n reps)" — or the single positive acknowledgement when no check crosses
the threshold (so a check non-good in exactly 30% of reps contributes no
line). -/
theorem c6_aggregate_feedback (reps : List RepResult) (hne : reps ≠ [])
    (hnodup : ∀ rep ∈ reps, (rep.checks.map (fun c => c.name)).Nodup) :
    (∀ n c f, (n, c, f) ∈ collectViolations reps →
        c = badCount reps n ∧
        ∃ rep ∈ reps, ∃ chk ∈ rep.checks,
          chk.name = n ∧ chk.quality ≠ "good" ∧ chk.feedback = f) ∧
    (∀ n, badCount reps n ≠ 0 →
        ∃ c f, (n, c, f) ∈ collectViolations reps) ∧
    ((collectViolations reps).map (fun e => e.1)).Nodup ∧
    generate_feedback reps =
      (if ((collectViolations reps).filter
            (fun e => decide (3 * reps.length < 10 * e.2.1))).map
            (fun e => feedbackLine e.2.2 e.2.1 reps.length) = []
       then ["Excellent form! Keep it up!"]
       else ((collectViolations reps).filter
            (fun e => decide (3 * reps.length < 10 * e.2.1))).map
            (fun e => feedbackLine e.2.2 e.2.1 reps.length)) := by
  have htot : 0 < reps.length := List.length_pos.mpr hne
  have hnd := names_nodup_collect reps
  refine ⟨?_, ?_, hnd, ?_⟩
  · intro n c f hmem
    constructor
    · have h1 := countOf_eq_of_mem (collectViolations reps) hnd n c f hmem
      rw [countOf_collect] at h1
      have h2 := badOcc_eq_badCount reps n hnodup
      omega
    · have hprov := prov_collect
        (fun m g => ∃ rep ∈ reps, ∃ chk ∈ rep.checks,
          chk.name = m ∧ chk.quality ≠ "good" ∧ chk.feedback = g)
        reps
        (fun rep hrep chk hchk hq =>
          ⟨rep, hrep, chk, hchk, rfl, hq, rfl⟩)
        (n, c, f) hmem
      exact hprov
  · intro n hbc
    have hocc : 0 < countOf (collectViolations reps) n := by
      rw [countOf_collect, badOcc_eq_badCount reps n hnodup]
      omega
    exact exists_mem_of_countOf_pos (collectViolations reps) n hocc
  · simp only [generate_feedback]
    rw [feedback_filterMap _ _ htot]
    by_cases he : ((collectViolations reps).filter
        (fun e => decide (3 * reps.length < 10 * e.2.1))).map
        (fun e => feedbackLine e.2.2 e.2.1 reps.length) = []
    · simp [he]
    · simp [he]

/-- A rep whose single check "depth" is good (for the C6 witness). -/
def c6goodRep : RepResult :=
  { rep_score := 1,
    checks := [{ name := "depth", value := 90, score := 1,
                 quality := "good", feedback := "Perfect depth" }] }

/-- A rep whose single check "depth" is poor (for the C6 witness). -/
def c6badRep : RepResult :=
  { rep_score := 0,
    checks := [{ name := "depth", value := 60, score := 0,
                 quality := "poor", feedback := "Go deeper" }] }

/-- 4 bad and 6 good reps: "depth" is non-good in 40% of reps. -/
def c6reps : List RepResult :=
  List.replicate 4 c6badRep ++ List.replicate 6 c6goodRep

/-- 3 bad and 7 good reps: "depth" is non-good in exactly 30% of reps. -/
def c6reps3 : List RepResult :=
  List.replicate 3 c6badRep ++ List.replicate 7 c6goodRep

/-- Witness for C6: over the 30% threshold (4/10) one line with the "(4/10
reps)" suffix appears; at exactly 30% (3/10) no line appears and the
positive acknowledgement is returned. -/
theorem c6_witness :
    badCount c6reps "depth" = 4 ∧
    generate_feedback c6reps = ["Go deeper (4/10 reps)"] ∧
    badCount c6reps3 "depth" = 3 ∧
    generate_feedback c6reps3 = ["Excellent form! Keep it up!"] := by
  have h1 := c6_aggregate_feedback c6reps (by decide) (by decide)
  have h2 := c6_aggregate_feedback c6reps3 (by decide) (by decide)
  exact ⟨by decide, h1.2.2.2.trans (by decide), by decide,
    h2.2.2.2.trans (by decide)⟩

/-! ### C4: the scoring stage of `_apply_check` -/

/-- The scoring stage of `AngleFormAnalyzer._apply_check` (lines 859–876):
given the observed value and the four range bounds, produce the score and
the quality tier. -/
def scoreValue (value ideal_min ideal_max accept_min accept_max : ℚ) :
    ℚ × String :=
  if ideal_min ≤ value ∧ value ≤ ideal_max then (1, "good")
  else if accept_min ≤ value ∧ value ≤ accept_max then
    (if value < ideal_min then
        7/10 + 3/10 * (value - accept_min) / (ideal_min - accept_min)
      else 7/10 + 3/10 * (accept_max - value) / (accept_max - ideal_max),
     "acceptable")
  else
    (if value < accept_min then max 0 (3/10 * value / accept_min)
     else max 0 (3/10 * (180 - value) / (180 - accept_max)),
     "poor")

/-- C4: for a check with `accept_min < ideal_min ≤ ideal_max < accept_max`
and an observed value in [0, 180]: inside the ideal range the score is 1.0
with tier "good"; inside the acceptable range but outside the ideal range
the score is the linear interpolation toward the nearer ideal boundary,
lies in [0.7, 1.0), and equals exactly 0.7 on an acceptable-range boundary,
with tier "acceptable"; outside the acceptable range the score is
`max 0 (0.3·value/accept_min)` below and
`max 0 (0.3·(180−value)/(180−accept_max))` above, with tier "poor". -/
theorem c4_check_scoring (value imin imax amin amax : ℚ)
    (h1 : amin < imin) (h2 : imin ≤ imax) (h3 : imax < amax)
    (h0 : 0 ≤ value) (h180 : value ≤ 180) :
    ((imin ≤ value ∧ value ≤ imax) →
        scoreValue value imin imax amin amax = (1, "good")) ∧
    ((amin ≤ value ∧ value ≤ amax ∧ ¬ (imin ≤ value ∧ value ≤ imax)) →
        (scoreValue value imin imax amin amax).2 = "acceptable" ∧
        7/10 ≤ (scoreValue value imin imax amin amax).1 ∧
        (scoreValue value imin imax amin amax).1 < 1 ∧
        (value < imin →
          (scoreValue value imin imax amin amax).1
            = 7/10 + 3/10 * (value - amin) / (imin - amin)) ∧
        (imax < value →
          (scoreValue value imin imax amin amax).1
            = 7/10 + 3/10 * (amax - value) / (amax - imax)) ∧
        ((value = amin ∨ value = amax) →
          (scoreValue value imin imax amin amax).1 = 7/10)) ∧
    (¬ (amin ≤ value ∧ value ≤ amax) →
        (scoreValue value imin imax amin amax).2 = "poor" ∧
        (value < amin →
          (scoreValue value imin imax amin amax).1
            = max 0 (3/10 * value / amin)) ∧
        (amax < value →
          (scoreValue value imin imax amin amax).1
            = max 0 (3/10 * (180 - value) / (180 - amax)))) := by
  refine ⟨?_, ?_, ?_⟩
  · intro hideal
    rw [scoreValue, if_pos hideal]
  · rintro ⟨ha1, ha2, hni⟩
    rw [scoreValue, if_neg hni, if_pos ⟨ha1, ha2⟩]
    by_cases hlo : value < imin
    · have hd : 0 < imin - amin := by linarith
      have ht0 : 0 ≤ (value - amin) / (imin - amin) :=
        div_nonneg (by linarith) (le_of_lt hd)
      have ht1 : (value - amin) / (imin - amin) < 1 := by
        rw [div_lt_one hd]
        linarith
      have hsc : 7/10 + 3/10 * (value - amin) / (imin - amin)
          = 7/10 + 3/10 * ((value - amin) / (imin - amin)) := by
        ring
      refine ⟨rfl, ?_, ?_, fun _ => by rw [if_pos hlo], fun hhi => ?_,
        fun hb => ?_⟩
      · show 7/10 ≤ if value < imin then _ else _
        rw [if_pos hlo, hsc]
        nlinarith
      · show (if value < imin then _ else _) < 1
        rw [if_pos hlo, hsc]
        nlinarith
      · linarith
      · show (if value < imin then _ else _) = 7/10
        rw [if_pos hlo]
        rcases hb with hb | hb
        · rw [hb]
          field_simp
        · exfalso
          linarith
    · push_neg at hlo
      have hhi : imax < value := by
        rcases not_and_or.mp hni with hni1 | hni1
        · exact absurd hlo (by simpa using hni1)
        · simpa using hni1
      have hd : 0 < amax - imax := by linarith
      have ht0 : 0 ≤ (amax - value) / (amax - imax) :=
        div_nonneg (by linarith) (le_of_lt hd)
      have ht1 : (amax - value) / (amax - imax) < 1 := by
        rw [div_lt_one hd]
        linarith
      have hsc : 7/10 + 3/10 * (amax - value) / (amax - imax)
          = 7/10 + 3/10 * ((amax - value) / (amax - imax)) := by
        ring
      have hnlo : ¬ (value < imin) := by linarith
      refine ⟨rfl, ?_, ?_, fun hc => absurd hc hnlo, fun _ => by
        rw [if_neg hnlo], fun hb => ?_⟩
      · show 7/10 ≤ if value < imin then _ else _
        rw [if_neg hnlo, hsc]
        nlinarith
      · show (if value < imin then _ else _) < 1
        rw [if_neg hnlo, hsc]
        nlinarith
      · show (if value < imin then _ else _) = 7/10
        rw [if_neg hnlo]
        rcases hb with hb | hb
        · exfalso
          linarith
        · rw [hb]
          field_simp
  · intro hout
    rw [scoreValue, if_neg, if_neg hout]
    · by_cases hlo : value < amin
      · exact ⟨rfl, fun _ => by rw [if_pos hlo], fun hhi => by linarith⟩
      · push_neg at hlo
        refine ⟨rfl, fun hc => absurd hc (not_lt.mpr hlo), fun _ => by
          rw [if_neg (not_lt.mpr hlo)]⟩
    · intro hideal
      exact hout ⟨by linarith [hideal.1], by linarith [hideal.2]⟩

/-- Witness for C4: the squat-depth style bounds 70/80–90/100 at the exact
acceptable boundary value 70, which scores exactly 0.7 in tier
"acceptable". -/
theorem c4_witness :
    (scoreValue 70 80 90 70 100).2 = "acceptable" ∧
    (scoreValue 70 80 90 70 100).1 = 7/10 := by
  have h := c4_check_scoring 70 80 90 70 100 (by norm_num) (by norm_num)
    (by norm_num) (by norm_num) (by norm_num)
  have h2 := h.2.1 ⟨by norm_num, by norm_num, by norm_num⟩
  exact ⟨h2.1, h2.2.2.2.2.2 (Or.inl rfl)⟩

/-! ### C5: calculate_angle (rep_counter.py lines 32–51)

The geometry is transcendental (numpy `sqrt`, `arccos`), so this part of the
embedding lives over ℝ; the guards of the claim — the epsilon in the
denominator and the clip before arccos — are carried over verbatim. -/

/-- `np.linalg.norm` of a 2-vector. -/
noncomputable def vecNorm (v : ℝ × ℝ) : ℝ := Real.sqrt (v.1 ^ 2 + v.2 ^ 2)

/-- The guarded denominator `norm(v1) * norm(v2) + 1e-8`. -/
noncomputable def angleDenom (p1 p2 p3 : ℝ × ℝ) : ℝ :=
  vecNorm (p1.1 - p2.1, p1.2 - p2.2) * vecNorm (p3.1 - p2.1, p3.2 - p2.2)
    + 1 / 100000000

/-- The cosine after `np.clip(cos_angle, -1.0, 1.0)`. -/
noncomputable def clippedCos (p1 p2 p3 : ℝ × ℝ) : ℝ :=
  max (-1) (min (((p1.1 - p2.1) * (p3.1 - p2.1)
    + (p1.2 - p2.2) * (p3.2 - p2.2)) / angleDenom p1 p2 p3) 1)

/-- `calculate_angle(point1, point2, point3)`: the angle in degrees at the
vertex `point2`. -/
noncomputable def calculate_angle (p1 p2 p3 : ℝ × ℝ) : ℝ :=
  Real.arccos (clippedCos p1 p2 p3) * (180 / Real.pi)

/-- C5: for every three input points, including degenerate ones, the
denominator is strictly positive (so no division by zero), the clipped
cosine lies in [−1, 1] (so arccos is evaluated inside its domain), and the
returned angle is a well-defined real number in [0, 180]. -/
theorem c5_angle_total_and_bounded (p1 p2 p3 : ℝ × ℝ) :
    0 < angleDenom p1 p2 p3 ∧
    -1 ≤ clippedCos p1 p2 p3 ∧ clippedCos p1 p2 p3 ≤ 1 ∧
    0 ≤ calculate_angle p1 p2 p3 ∧ calculate_angle p1 p2 p3 ≤ 180 := by
  have hd : 0 < angleDenom p1 p2 p3 := by
    have h1 : 0 ≤ vecNorm (p1.1 - p2.1, p1.2 - p2.2) := Real.sqrt_nonneg _
    have h2 : 0 ≤ vecNorm (p3.1 - p2.1, p3.2 - p2.2) := Real.sqrt_nonneg _
    have h3 : 0 ≤ vecNorm (p1.1 - p2.1, p1.2 - p2.2)
        * vecNorm (p3.1 - p2.1, p3.2 - p2.2) := mul_nonneg h1 h2
    rw [angleDenom]
    positivity
  have hpi : 0 < Real.pi := Real.pi_pos
  have hscale : 0 ≤ 180 / Real.pi := by positivity
  refine ⟨hd, le_max_left _ _, ?_, ?_, ?_⟩
  · exact max_le (by norm_num) (min_le_right _ _)
  · exact mul_nonneg (Real.arccos_nonneg _) hscale
  · have harc : Real.arccos (clippedCos p1 p2 p3) ≤ Real.pi :=
      Real.arccos_le_pi _
    have h := mul_le_mul_of_nonneg_right harc hscale
    calc calculate_angle p1 p2 p3
        ≤ Real.pi * (180 / Real.pi) := h
      _ = 180 := by field_simp

/-! ### C7: alias ids in the exercise registries

Only the four registry entries named by the claim are embedded:
`EXERCISE_CONFIGS['pushups' | 'push-ups' | 'pullups' | 'pull-ups']` from
rep_counter.py and `FORM_RULES` for the same four ids from
form_analyzer.py. -/

/-- Tag naming the angle-extractor function stored in a config. -/
inductive AngleSelector where
  | pushupAngle : AngleSelector
  | pullupAngle : AngleSelector
deriving DecidableEq, Repr

/-- One `EXERCISE_CONFIGS` entry. -/
structure ExerciseConfig where
  angle_extractor : AngleSelector
  down_threshold : ℚ
  up_threshold : ℚ
  min_frames_down : ℕ
  min_frames_up : ℕ
  display_name : String
  category : String
deriving DecidableEq, Repr

/-- `EXERCISE_CONFIGS['pushups']`. -/
def EXERCISE_CONFIGS_pushups : ExerciseConfig :=
  { angle_extractor := .pushupAngle, down_threshold := 165,
    up_threshold := 85, min_frames_down := 3, min_frames_up := 3,
    display_name := "Push-ups", category := "Push" }

/-- `EXERCISE_CONFIGS['push-ups']`. -/
def EXERCISE_CONFIGS_push_hyphen_ups : ExerciseConfig :=
  { angle_extractor := .pushupAngle, down_threshold := 165,
    up_threshold := 85, min_frames_down := 3, min_frames_up := 3,
    display_name := "Push-ups", category := "Push" }

/-- `EXERCISE_CONFIGS['pullups']`. -/
def EXERCISE_CONFIGS_pullups : ExerciseConfig :=
  { angle_extractor := .pullupAngle, down_threshold := 165,
    up_threshold := 70, min_frames_down := 3, min_frames_up := 3,
    display_name := "Pull-ups", category := "Pull" }

/-- `EXERCISE_CONFIGS['pull-ups']`. -/
def EXERCISE_CONFIGS_pull_hyphen_ups : ExerciseConfig :=
  { angle_extractor := .pullupAngle, down_threshold := 165,
    up_threshold := 70, min_frames_down := 3, min_frames_up := 3,
    display_name := "Pull-ups", category := "Pull" }

/-- The counting configuration read off an `EXERCISE_CONFIGS` entry when
`process_video` constructs its `AngleRepCounter`. -/
def repConfigOf (c : ExerciseConfig) : RepConfig :=
  { down_threshold := c.down_threshold, up_threshold := c.up_threshold,
    min_frames_down := c.min_frames_down, min_frames_up := c.min_frames_up }

/-- One `FORM_RULES` check. -/
structure FormCheck where
  name : String
  description : String
  angle : String
  phase : String
  ideal_min : ℚ
  ideal_max : ℚ
  accept_min : ℚ
  accept_max : ℚ
  weight : ℚ
  feedback_good : String
  feedback_acceptable : String
  feedback_poor : String
deriving DecidableEq, Repr

/-- `FORM_RULES['pushups']['checks']` (three checks). -/
def FORM_RULES_pushups : List FormCheck :=
  [{ name := "elbow_depth",
     description := "Push-up depth (elbow angle at bottom)",
     angle := "elbow", phase := "min",
     ideal_min := 80, ideal_max := 90, accept_min := 70, accept_max := 100,
     weight := 0.4,
     feedback_good := "Perfect depth - chest near ground!",
     feedback_acceptable := "Good depth, try to reach 90° elbow flexion.",
     feedback_poor := "Go deeper - bend elbows to 90° for full ROM." },
   { name := "body_alignment",
     description := "Straight body (hip extension)",
     angle := "hip", phase := "range",
     ideal_min := 170, ideal_max := 180, accept_min := 160,
     accept_max := 180,
     weight := 0.35,
     feedback_good := "Perfect body alignment - straight line maintained!",
     feedback_acceptable := "Good alignment, engage core to prevent hip sag.",
     feedback_poor :=
       "Keep hips level - avoid sagging (strengthen core) or piking." },
   { name := "elbow_flare",
     description := "Elbow position (shoulder angle)",
     angle := "shoulder", phase := "range",
     ideal_min := 75, ideal_max := 105, accept_min := 65, accept_max := 115,
     weight := 0.25,
     feedback_good := "Perfect elbow position - 45° from body!",
     feedback_acceptable := "Good form, watch elbow flare for shoulder safety.",
     feedback_poor :=
       "Keep elbows at 45° from body - avoid excessive flaring (>60°)." }]

/-- `FORM_RULES['push-ups']['checks']` (two checks; `body_alignment` has
weight 0.6 here, and there is no `elbow_flare` check). -/
def FORM_RULES_push_hyphen_ups : List FormCheck :=
  [{ name := "elbow_depth",
     description := "Push-up depth (elbow angle at bottom)",
     angle := "elbow", phase := "min",
     ideal_min := 80, ideal_max := 90, accept_min := 70, accept_max := 100,
     weight := 0.4,
     feedback_good := "Perfect depth - chest near ground!",
     feedback_acceptable := "Good depth, try to reach 90° elbow flexion.",
     feedback_poor := "Go deeper - bend elbows to 90° for full ROM." },
   { name := "body_alignment",
     description := "Straight body (hip extension)",
     angle := "hip", phase := "range",
     ideal_min := 170, ideal_max := 180, accept_min := 160,
     accept_max := 180,
     weight := 0.6,
     feedback_good := "Perfect body alignment - straight line maintained!",
     feedback_acceptable := "Good alignment, engage core to prevent hip sag.",
     feedback_poor :=
       "Keep hips level - avoid sagging (strengthen core) or piking." }]

/-- `FORM_RULES['pullups']['checks']`. -/
def FORM_RULES_pullups : List FormCheck :=
  [{ name := "pull_height",
     description := "Chin over bar (elbow flexion)",
     angle := "elbow", phase := "min",
     ideal_min := 65, ideal_max := 75, accept_min := 55, accept_max := 85,
     weight := 0.6,
     feedback_good := "Perfect height - chin over bar!",
     feedback_acceptable := "Good pull, get chin higher over bar.",
     feedback_poor := "Pull higher - chin must clear the bar." },
   { name := "full_extension",
     description := "Full arm extension at bottom",
     angle := "elbow", phase := "max",
     ideal_min := 163, ideal_max := 173, accept_min := 155,
     accept_max := 180,
     weight := 0.4,
     feedback_good := "Perfect extension - full range of motion!",
     feedback_acceptable := "Good extension, fully extend arms at bottom.",
     feedback_poor := "Extend arms fully at bottom - avoid partial reps." }]

/-- `FORM_RULES['pull-ups']['checks']` (identical to `pullups`). -/
def FORM_RULES_pull_hyphen_ups : List FormCheck :=
  [{ name := "pull_height",
     description := "Chin over bar (elbow flexion)",
     angle := "elbow", phase := "min",
     ideal_min := 65, ideal_max := 75, accept_min := 55, accept_max := 85,
     weight := 0.6,
     feedback_good := "Perfect height - chin over bar!",
     feedback_acceptable := "Good pull, get chin higher over bar.",
     feedback_poor := "Pull higher - chin must clear the bar." },
   { name := "full_extension",
     description := "Full arm extension at bottom",
     angle := "elbow", phase := "max",
     ideal_min := 163, ideal_max := 173, accept_min := 155,
     accept_max := 180,
     weight := 0.4,
     feedback_good := "Perfect extension - full range of motion!",
     feedback_acceptable := "Good extension, fully extend arms at bottom.",
     feedback_poor := "Extend arms fully at bottom - avoid partial reps." }]

/-- C7 counterexample: the 'pushups' and 'push-ups' ids do NOT share one
profile — their form rule sets differ (three checks vs two, and different
weights), so the two spellings cannot yield identical form analysis. -/
theorem c7_counterexample :
    FORM_RULES_pushups.length = 3 ∧
    FORM_RULES_push_hyphen_ups.length = 2 ∧
    FORM_RULES_pushups ≠ FORM_RULES_push_hyphen_ups := by
  refine ⟨rfl, rfl, ?_⟩
  intro h
  have hlen := congrArg List.length h
  simp [FORM_RULES_pushups, FORM_RULES_push_hyphen_ups] at hlen

/-- C7 amended: the rep-counting configurations of the two spelling pairs
are identical (so rep counting agrees for every angle sequence), and the
pull-up pair also shares its form rule set; only the pushups/push-ups form
rule sets differ. -/
theorem c7_alias_profiles :
    EXERCISE_CONFIGS_pushups = EXERCISE_CONFIGS_push_hyphen_ups ∧
    EXERCISE_CONFIGS_pullups = EXERCISE_CONFIGS_pull_hyphen_ups ∧
    FORM_RULES_pullups = FORM_RULES_pull_hyphen_ups ∧
    (∀ angles : List ℚ,
      run (repConfigOf EXERCISE_CONFIGS_pushups) angles
        = run (repConfigOf EXERCISE_CONFIGS_push_hyphen_ups) angles) ∧
    (∀ angles : List ℚ,
      run (repConfigOf EXERCISE_CONFIGS_pullups) angles
        = run (repConfigOf EXERCISE_CONFIGS_pull_hyphen_ups) angles) :=
  ⟨rfl, rfl, rfl, fun _ => rfl, fun _ => rfl⟩

/-! ### C9: compression post-processing (video_pose_processor.py)

`_compress_video` runs ffmpeg as a subprocess; the subprocess outcome and
the filesystem effects are modelled explicitly: the outcome is a parameter,
and the deletion of the raw file is recorded as a flag.  The input path is
represented by the `(base, ext)` pair produced by `os.path.splitext`. -/

/-- The outcome of the ffmpeg invocation inside `_compress_video`. -/
inductive CompressOutcome where
  | success : CompressOutcome
  | nonzeroExit : CompressOutcome
  | timedOut : CompressOutcome
  | toolMissing : CompressOutcome
deriving DecidableEq, Repr

/-- `VideoPoseProcessor._compress_video`: on success it returns
`base + "_compressed" + ext`; on a nonzero exit status, a timeout
(`subprocess.TimeoutExpired`) or a missing ffmpeg binary
(`FileNotFoundError`) it returns the original input path unchanged. -/
def compress_video (base ext : String) (outcome : CompressOutcome) :
    String :=
  match outcome with
  | .success => base ++ "_compressed" ++ ext
  | .nonzeroExit => base ++ ext
  | .timedOut => base ++ ext
  | .toolMissing => base ++ ext

/-- The result of the compression step of `process_video`. -/
structure PostProcessResult where
  output_path : String
  deleted_original : Bool
deriving DecidableEq, Repr

/-- Lines 226–231 of `process_video`: call `_compress_video`, then delete
the raw output exactly when the returned path differs from it, and report
the returned path as the final artifact. -/
def postprocess (base ext : String) (outcome : CompressOutcome) :
    PostProcessResult :=
  let output_path := base ++ ext
  let compressed_path := compress_video base ext outcome
  { output_path := compressed_path,
    deleted_original := decide (compressed_path ≠ output_path) }

theorem compressed_path_ne (base ext : String) :
    base ++ "_compressed" ++ ext ≠ base ++ ext := by
  intro h
  have hlen := congrArg String.length h
  simp only [String.length_append] at hlen
  have h11 : "_compressed".length = 11 := rfl
  omega

/-- C9: if the compression step fails (nonzero exit, timeout, or missing
tool) the final output path is the original uncompressed path and the file
is not deleted; when compression succeeds the compressed file becomes the
output path and the raw file is deleted. -/
theorem c9_compression_fallback (base ext : String)
    (outcome : CompressOutcome) :
    (outcome ≠ .success →
      (postprocess base ext outcome).output_path = base ++ ext ∧
      (postprocess base ext outcome).deleted_original = false) ∧
    (outcome = .success →
      (postprocess base ext outcome).output_path
          = base ++ "_compressed" ++ ext ∧
      (postprocess base ext outcome).deleted_original = true) := by
  constructor
  · intro hne
    cases outcome with
    | success => exact absurd rfl hne
    | nonzeroExit => exact ⟨rfl, by simp [postprocess, compress_video]⟩
    | timedOut => exact ⟨rfl, by simp [postprocess, compress_video]⟩
    | toolMissing => exact ⟨rfl, by simp [postprocess, compress_video]⟩
  · intro he
    subst he
    refine ⟨rfl, ?_⟩
    simp only [postprocess, compress_video]
    simp [compressed_path_ne base ext]

/-- Witness for C9: a concrete path "out.mp4", exercising both the timeout
fallback and the success path. -/
theorem c9_witness :
    (postprocess "out" ".mp4" .timedOut).output_path = "out.mp4" ∧
    (postprocess "out" ".mp4" .timedOut).deleted_original = false ∧
    (postprocess "out" ".mp4" .success).output_path
        = "out_compressed.mp4" ∧
    (postprocess "out" ".mp4" .success).deleted_original = true := by
  have h1 := (c9_compression_fallback "out" ".mp4" .timedOut).1 (by decide)
  have h2 := (c9_compression_fallback "out" ".mp4" .success).2 rfl
  exact ⟨h1.1.trans (by decide), h1.2, h2.1.trans (by decide), h2.2⟩

end KarmaQuest
